import Mathlib

/-!
Shallow embedding of the `enterprise` admin views (`enterprise/admin/views.py`)
and signal handlers (`enterprise/signals.py`) of the edx-enterprise repository,
with theorems settling the claims about linking learners, enrolling users,
catalog synchronisation, role assignment and the branding-logo lifecycle.

Database state is modelled as explicit lists of records, HTTP traffic and
logging as explicit effect traces, and exceptions as `Except` / `Option`
values.  Helper functions of the repository that are not part of the sources
under review (form validators, ORM managers, the roles API) are modelled from
the specification and are marked as such in their doc comments.
-/

namespace Enterprise

/-! ## Link state: which (enterprise customer, email) pairs are linked

An enterprise customer is identified by a `Nat` (standing for its uuid), a
learner by an email `String`.  The link table stands for the union of
`EnterpriseCustomerUser` and `PendingEnterpriseCustomerUser` rows, which is
what `validate_email_to_link(..., ignore_existing=...)` consults. -/

/-- A link record: (enterprise customer uuid, user email). -/
abbrev LinkState := List (Nat × String)

/-- Environment of the manage-learners view: which strings are well-formed
email addresses (or usernames resolving to one).  Modelled from the spec:
`validate_email_to_link` (in `enterprise/admin/utils.py`, not under review)
validates the email format. -/
structure LinkEnv where
  validEmail : String → Bool
  /-- `email_or_username__to__email`: resolve the submitted field value to an
  email address.  Modelled from the spec. -/
  emailOf : String → String

/-- Modelled from the spec: `validate_email_to_link(email, ...)` raises a
`ValidationError` when the email is malformed, and — unless
`ignore_existing` is set — also when the email is already linked to the
enterprise customer; with `ignore_existing=True` it instead returns whether
the email was already linked. -/
def validate_email_to_link (env : LinkEnv) (st : LinkState) (ec : Nat)
    (email : String) (ignoreExisting : Bool) : Except String Bool :=
  if ¬ env.validEmail email then
    .error ("invalid email " ++ email)
  else if (ec, email) ∈ st ∧ ¬ ignoreExisting then
    .error ("email " ++ email ++ " already linked")
  else
    .ok (decide ((ec, email) ∈ st))

/-- Modelled from the spec: `EnterpriseCustomerUser.objects.link_user`
links the email to the enterprise customer (creating the appropriate
user / pending-user record once). -/
def link_user (st : LinkState) (ec : Nat) (email : String) : LinkState :=
  if (ec, email) ∈ st then st else st ++ [(ec, email)]

/-- Result of `EnterpriseCustomerManageLearnersView._handle_singular`:
the possibly-updated link table, the handler's return value (`None` on a
validation error) and the form errors added. -/
structure SingularResult where
  state : LinkState
  returned : Option (List String)
  formErrors : List String
  deriving Repr, DecidableEq

/-- `EnterpriseCustomerManageLearnersView._handle_singular`: resolve the
email-or-username field to an email, validate it (not ignoring existing
links), and on success link it and return it as a one-element list; on a
`ValidationError` add a form error and return `None`. -/
def handle_singular (env : LinkEnv) (st : LinkState) (ec : Nat)
    (fieldValue : String) : SingularResult :=
  let email := env.emailOf fieldValue
  match validate_email_to_link env st ec email false with
  | .error msg => { state := st, returned := none, formErrors := [msg] }
  | .ok _ => { state := link_user st ec email, returned := some [email], formErrors := [] }

/-- Accumulator pass of `_handle_bulk_upload`'s validation loop over the CSV
rows: returns `(errors, emails, already_linked_emails, duplicate_emails)`
exactly as the Python loop accumulates them (`emails` is kept as an
insertion-ordered duplicate-free list standing for the Python set). -/
def bulkValidate (env : LinkEnv) (st : LinkState) (ec : Nat) :
    Nat → List String → List String → List String → List String → List String →
    List String × List String × List String × List String
  | _, errors, emails, already, dups, [] => (errors, emails, already, dups)
  | idx, errors, emails, already, dups, email :: rest =>
    match validate_email_to_link env st ec email true with
    | .error msg =>
        bulkValidate env st ec (idx + 1)
          (errors ++ ["Error at line " ++ toString (idx + 1) ++ ": " ++ msg])
          emails already dups rest
    | .ok alreadyLinked =>
        if alreadyLinked then
          bulkValidate env st ec (idx + 1) errors emails (already ++ [email]) dups rest
        else if email ∈ emails then
          bulkValidate env st ec (idx + 1) errors emails already (dups ++ [email]) rest
        else
          bulkValidate env st ec (idx + 1) errors (emails ++ [email]) already dups rest

/-- Result of `EnterpriseCustomerManageLearnersView._handle_bulk_upload`. -/
structure BulkResult where
  state : LinkState
  returned : Option (List String)
  formErrors : List String
  warnAlreadyLinked : List String
  warnDuplicates : List String
  deriving Repr, DecidableEq

/-- The general form error added when any row failed validation. -/
def BULK_LINK_FAILED : String := "Bulk link failed"

/-- `EnterpriseCustomerManageLearnersView._handle_bulk_upload`: parse the CSV
(`csv` is `.error msg` when `parse_csv` raises a `ValidationError`, else the
list of email cells), validate every row collecting errors; when any error
was collected add form errors and return `None` without linking anyone;
otherwise link every collected email and return the newly linked emails
together with the already-linked ones, warning about already-linked and
duplicate emails. -/
def handle_bulk_upload (env : LinkEnv) (st : LinkState) (ec : Nat)
    (csv : Except String (List String)) : BulkResult :=
  let parsed := match csv with
    | .error msg => ([msg], [], [], [])
    | .ok rows => bulkValidate env st ec 0 [] [] [] [] rows
  match parsed with
  | (errors, emails, already, dups) =>
    if errors ≠ [] then
      { state := st, returned := none,
        formErrors := BULK_LINK_FAILED :: errors,
        warnAlreadyLinked := [], warnDuplicates := [] }
    else
      { state := emails.foldl (fun s e => link_user s ec e) st,
        returned := some (emails ++ already),
        formErrors := [],
        warnAlreadyLinked := already, warnDuplicates := dups }

/-! ## `EnterpriseCustomerManageLearnersView._enroll_users`

The environment supplies the `User` table (`User.objects.get(email=...)`
looks up the username by email) and the behaviour of
`EnrollmentApiClient().enroll_user_in_course(username, course_id, mode)`:
`some msg` means the call raises `HttpClientError` whose payload carries
`msg`, `none` means it succeeds. -/

/-- Environment of `_enroll_users`. -/
structure EnrollEnv where
  /-- The `User` table as (email, username) pairs. -/
  users : List (String × String)
  /-- Whether the enrollment API call raises `HttpClientError`, and with
  which error message. -/
  enrollError : String → String → String → Option String

/-- `User.objects.get(email=email).username`, `none` on `User.DoesNotExist`. -/
def lookupUsername (users : List (String × String)) (email : String) : Option String :=
  (users.find? (fun u => u.1 = email)).map (·.2)

/-- A `PendingEnterpriseCustomerUser` row: (row id, enterprise customer, email). -/
abbrev PendingUsers := List (Nat × Nat × String)

/-- A `PendingEnrollment` row: (pending user row id, course_id, course_mode). -/
abbrev PendingEnrollments := List (Nat × String × String)

/-- `PendingEnterpriseCustomerUser.objects.get(enterprise_customer=..,
user_email=..)`: the row id of the matching pending user, `none` when the
lookup raises `DoesNotExist`. -/
def findPendingUser (pus : PendingUsers) (ec : Nat) (email : String) : Option Nat :=
  (pus.find? (fun r => r.2.1 = ec ∧ r.2.2 = email)).map (·.1)

/-- `PendingEnrollment.objects.update_or_create(user=.., course_id=..,
course_mode=..)`: all keyword arguments are lookup fields, so the row is
created when absent and left as-is when present. -/
def updateOrCreatePendingEnrollment (pes : PendingEnrollments)
    (row : Nat × String × String) : PendingEnrollments :=
  if row ∈ pes then pes else pes ++ [row]

/-- The per-email loop of `_enroll_users`, with accumulators in iteration
order: returns `(enrolled, non_existing, failed, error logs, api calls)`. -/
def enrollLoop (env : EnrollEnv) (courseId mode : String) :
    List String → List String → List String → List String → Nat → List String →
    List String × List String × List String × List String × Nat
  | enrolled, nonExisting, failed, logs, apiCalls, [] =>
      (enrolled, nonExisting, failed, logs, apiCalls)
  | enrolled, nonExisting, failed, logs, apiCalls, email :: rest =>
    match lookupUsername env.users email with
    | none =>
        enrollLoop env courseId mode enrolled (nonExisting ++ [email]) failed logs
          apiCalls rest
    | some username =>
      match env.enrollError username courseId mode with
      | some msg =>
          enrollLoop env courseId mode enrolled nonExisting (failed ++ [email])
            (logs ++ ["Error while enrolling user " ++ username ++ ": " ++ msg])
            (apiCalls + 1) rest
      | none =>
          enrollLoop env courseId mode (enrolled ++ [email]) nonExisting failed logs
            (apiCalls + 1) rest

/-- The post-loop pass of `_enroll_users` over `non_existing`: for each email
look up the matching `PendingEnterpriseCustomerUser` (an uncaught
`DoesNotExist` is an `.error`) and `update_or_create` a `PendingEnrollment`
for it. -/
def recordPendingEnrollments (pus : PendingUsers) (ec : Nat)
    (courseId mode : String) :
    PendingEnrollments → List String → Except String PendingEnrollments
  | pes, [] => .ok pes
  | pes, email :: rest =>
    match findPendingUser pus ec email with
    | none => .error "PendingEnterpriseCustomerUser.DoesNotExist"
    | some pid =>
        recordPendingEnrollments pus ec courseId mode
          (updateOrCreatePendingEnrollment pes (pid, courseId, mode)) rest

/-- Result of `_enroll_users`. -/
structure EnrollResult where
  enrolled : List String
  nonExisting : List String
  failed : List String
  errorLogs : List String
  apiCalls : Nat
  /-- The `PendingEnrollment` table afterwards; `.error` when the uncaught
  `PendingEnterpriseCustomerUser.DoesNotExist` escapes. -/
  pendingEnrollments : Except String PendingEnrollments

/-- `EnterpriseCustomerManageLearnersView._enroll_users`: run the per-email
loop, then record a pending enrollment for every non-existing email. -/
def enroll_users (env : EnrollEnv) (pus : PendingUsers) (pes : PendingEnrollments)
    (ec : Nat) (emails : List String) (courseId mode : String) : EnrollResult :=
  match enrollLoop env courseId mode [] [] [] [] 0 emails with
  | (enrolled, nonExisting, failed, logs, apiCalls) =>
    { enrolled := enrolled, nonExisting := nonExisting, failed := failed,
      errorLogs := logs, apiCalls := apiCalls,
      pendingEnrollments := recordPendingEnrollments pus ec courseId mode pes nonExisting }

/-! ## `EnterpriseCustomerManageLearnersView.delete`

`EnterpriseCustomerUser.objects.unlink_user` lives in `enterprise/models.py`
(not under review).  Modelled from the spec: it unlinks the email from the
enterprise customer and raises `EnterpriseCustomerUser.DoesNotExist` or
`PendingEnterpriseCustomerUser.DoesNotExist` when no linked or pending user
matches. -/

/-- Outcome of `unlink_user` for a given email: success or one of the two
exception types the view catches. -/
inductive UnlinkOutcome
  | ok
  | ecuDoesNotExist
  | pendingDoesNotExist
  deriving Repr, DecidableEq

/-- Environment of the delete handler: what `unlink_user` does per email. -/
structure DeleteEnv where
  unlinkResult : String → UnlinkOutcome

/-- An HTTP response as the handler produces it. -/
structure HttpResponseModel where
  status : Nat
  body : String
  deriving Repr, DecidableEq

/-- `EnterpriseCustomerManageLearnersView.delete`: unlink the email; the
`except` clause catches both `DoesNotExist` types and returns a 404 response;
on success a 200 response with an empty JSON body.  The second component is
the list of log records the handler emits (it never logs). -/
def manage_learners_delete (env : DeleteEnv) (ecName email : String) :
    HttpResponseModel × List String :=
  match env.unlinkResult email with
  | .ok => ({ status := 200, body := "\x7b\x7d" }, [])
  | .ecuDoesNotExist =>
      ({ status := 404,
         body := "Email " ++ email ++ " is not linked to Enterprise Customer " ++ ecName }, [])
  | .pendingDoesNotExist =>
      ({ status := 404,
         body := "Email " ++ email ++ " is not linked to Enterprise Customer " ++ ecName }, [])

/-! ## Catalog synchronisation signal handlers (`enterprise/signals.py`)

`update_enterprise_catalog_data` (post_save of `EnterpriseCustomerCatalog`)
and `delete_enterprise_catalog_data` (post_delete).  The HTTP traffic of the
`EnterpriseCatalogApiClient` is recorded as an effect trace. -/

/-- The fields of an `EnterpriseCustomerCatalog` instance the handlers read. -/
structure CatalogInstance where
  uuid : Nat
  enterpriseCustomerUuid : Nat
  enterpriseCustomerName : String
  title : String
  contentFilter : String
  enabledCourseModes : String
  publishAuditEnrollmentUrls : Bool
  catalogQueryUuid : Option Nat
  queryTitle : Option String
  includeExecEd2uCourses : Bool
  deriving Repr, DecidableEq

/-- Observable effects of the catalog signal handlers. -/
inductive CatalogEffect
  | getCatalog (uuid : Nat) (suppressNotFound : Bool)
  | createCatalog (inst : CatalogInstance)
  | updateCatalog (inst : CatalogInstance)
  | refreshCatalogs (uuid : Nat)
  | deleteCatalog (uuid : Nat)
  | logException (msg : String)
  | logInfo (msg : String)
  | scheduleTask (taskName : String)
  deriving Repr, DecidableEq

/-- Which effects are outbound HTTP calls of the catalog API client. -/
def CatalogEffect.isHttpCall : CatalogEffect → Bool
  | .getCatalog _ _ => true
  | .createCatalog _ => true
  | .updateCatalog _ => true
  | .refreshCatalogs _ => true
  | .deleteCatalog _ => true
  | .logException _ => false
  | .logInfo _ => false
  | .scheduleTask _ => false

/-- Environment of the catalog handlers: whether constructing
`EnterpriseCatalogApiClient` succeeds (else it raises
`NotConnectedToOpenEdX`), and whether the remote service already has a
catalog with a given uuid (the truthiness of the `get_enterprise_catalog`
response). -/
structure CatalogEnv where
  connected : Bool
  remoteExists : Nat → Bool

/-- `update_enterprise_catalog_data`: when connected, query the service for
the catalog (suppressing the 404 exception on create), create the remote
catalog when the response is empty, update it otherwise, and refresh in
either case; when not connected, log the exception. -/
def update_enterprise_catalog_data (env : CatalogEnv) (created : Bool)
    (inst : CatalogInstance) : List CatalogEffect :=
  if env.connected then
    [.getCatalog inst.uuid created] ++
    (if env.remoteExists inst.uuid then [.updateCatalog inst] else [.createCatalog inst]) ++
    [.refreshCatalogs inst.uuid]
  else
    [.logException ("Unable to update Enterprise Catalog " ++ toString inst.uuid)]

/-- `delete_enterprise_catalog_data`: when connected, delete the remote
catalog, else log; then, when some integrated-channel configuration of the
customer is active, log and schedule the orphaned-content audit task. -/
def delete_enterprise_catalog_data (env : CatalogEnv) (inst : CatalogInstance)
    (activeChannelExists : Bool) : List CatalogEffect :=
  (if env.connected then
    [.deleteCatalog inst.uuid]
  else
    [.logException ("Unable to delete Enterprise Catalog " ++ toString inst.uuid)]) ++
  (if activeChannelExists then
    [.logInfo ("Catalog " ++ toString inst.uuid ++ " deletion is linked to an active integrated channels config"),
     .scheduleTask "mark_orphaned_content_metadata_audit"]
  else [])

/-! ## Role-assignment signal handlers -/

/-- The two enterprise roles the handlers manage. -/
inductive EnterpriseRole
  | learner
  | admin
  deriving Repr, DecidableEq

/-- A role assignment row: (user id, enterprise customer, role). -/
abbrev RoleAssignments := List (Nat × Nat × EnterpriseRole)

/-- Modelled from the spec: `roles_api.assign_learner_role` ensures a
learner role assignment exists for the user and enterprise customer. -/
def assign_learner_role (st : RoleAssignments) (user ec : Nat) : RoleAssignments :=
  if (user, ec, EnterpriseRole.learner) ∈ st then st else st ++ [(user, ec, EnterpriseRole.learner)]

/-- Modelled from the spec: `roles_api.delete_learner_role_assignment`
removes the learner role assignment for the user and enterprise customer. -/
def delete_learner_role_assignment (st : RoleAssignments) (user ec : Nat) : RoleAssignments :=
  st.filter (fun r => r ≠ (user, ec, EnterpriseRole.learner))

/-- Modelled from the spec: `roles_api.delete_admin_role_assignment`
removes the admin role assignment for the user and enterprise customer. -/
def delete_admin_role_assignment (st : RoleAssignments) (user ec : Nat) : RoleAssignments :=
  st.filter (fun r => r ≠ (user, ec, EnterpriseRole.admin))

/-- The fields of an `EnterpriseCustomerUser` instance the handlers read:
the linked user (`none` when `instance.user` is falsy), the enterprise
customer, and the `linked` flag. -/
structure ECUInstance where
  user : Option Nat
  enterpriseCustomer : Nat
  linked : Bool
  deriving Repr, DecidableEq

/-- `assign_or_delete_enterprise_learner_role` (post_save of
`EnterpriseCustomerUser`): no-op without a user; assign the learner role on
create; on update assign when `linked`, delete the assignment otherwise. -/
def assign_or_delete_enterprise_learner_role (created : Bool) (inst : ECUInstance)
    (st : RoleAssignments) : RoleAssignments :=
  match inst.user with
  | none => st
  | some u =>
    if created then
      assign_learner_role st u inst.enterpriseCustomer
    else
      if inst.linked then
        assign_learner_role st u inst.enterpriseCustomer
      else
        delete_learner_role_assignment st u inst.enterpriseCustomer

/-- `delete_enterprise_admin_role_assignment` (post_delete of
`EnterpriseCustomerUser`): delete the admin role assignment when the record
has a user. -/
def delete_enterprise_admin_role_assignment (inst : ECUInstance)
    (st : RoleAssignments) : RoleAssignments :=
  match inst.user with
  | none => st
  | some u => delete_admin_role_assignment st u inst.enterpriseCustomer

/-- `delete_enterprise_learner_role_assignment` (post_delete of
`EnterpriseCustomerUser`): delete the learner role assignment when the
record has a user. -/
def delete_enterprise_learner_role_assignment (inst : ECUInstance)
    (st : RoleAssignments) : RoleAssignments :=
  match inst.user with
  | none => st
  | some u => delete_learner_role_assignment st u inst.enterpriseCustomer

/-- Deleting an `EnterpriseCustomerUser` runs both post_delete receivers,
in registration order. -/
def onEnterpriseCustomerUserDelete (inst : ECUInstance)
    (st : RoleAssignments) : RoleAssignments :=
  delete_enterprise_learner_role_assignment inst
    (delete_enterprise_admin_role_assignment inst st)

/-! ## Pending enterprise admin users -/

/-- The database state relevant to the pending-admin signal handlers:
`PendingEnterpriseCustomerAdminUser` rows and `PendingEnterpriseCustomerUser`
rows, both as (enterprise customer, user email). -/
structure PendingAdminState where
  admins : List (Nat × String)
  pendingUsers : List (Nat × String)
  deriving Repr, DecidableEq

/-- `create_pending_enterprise_admin_user` (post_save of
`PendingEnterpriseCustomerAdminUser`): `get_or_create` the matching
`PendingEnterpriseCustomerUser`. -/
def create_pending_enterprise_admin_user (inst : Nat × String)
    (pendingUsers : List (Nat × String)) : List (Nat × String) :=
  if inst ∈ pendingUsers then pendingUsers else pendingUsers ++ [inst]

/-- `delete_pending_enterprise_admin_user` (post_delete of
`PendingEnterpriseCustomerAdminUser`): delete the matching
`PendingEnterpriseCustomerUser` rows. -/
def delete_pending_enterprise_admin_user (inst : Nat × String)
    (pendingUsers : List (Nat × String)) : List (Nat × String) :=
  pendingUsers.filter (fun r => r ≠ inst)

/-- Saving a `PendingEnterpriseCustomerAdminUser`: write the row (get or
create) and run the post_save receiver. -/
def savePendingAdmin (st : PendingAdminState) (inst : Nat × String) : PendingAdminState :=
  { admins := if inst ∈ st.admins then st.admins else st.admins ++ [inst],
    pendingUsers := create_pending_enterprise_admin_user inst st.pendingUsers }

/-- Deleting a `PendingEnterpriseCustomerAdminUser` row and running the
post_delete receiver. -/
def deletePendingAdmin (st : PendingAdminState) (inst : Nat × String) : PendingAdminState :=
  { admins := st.admins.erase inst,
    pendingUsers := delete_pending_enterprise_admin_user inst st.pendingUsers }

/-- Every pending admin user has a matching pending user record. -/
def pendingAdminInvariant (st : PendingAdminState) : Prop :=
  ∀ a ∈ st.admins, a ∈ st.pendingUsers

/-! ## Branding-logo stash-and-restore handlers -/

/-- The fields of an `EnterpriseCustomerBrandingConfiguration` instance the
handlers touch: the primary key (`none` before the first save), the logo
file field, and the `_UNSAVED_FILEFIELD` attribute (`none` when the
attribute is absent, `some v` when present holding the stashed logo `v`). -/
structure BrandingInstance where
  id : Option Nat
  logo : Option String
  stash : Option (Option String)
  deriving Repr, DecidableEq

/-- `skip_saving_logo_file` (pre_save): for an unsaved instance without the
stash attribute, stash the logo on the instance and clear the logo field. -/
def skip_saving_logo_file (b : BrandingInstance) : BrandingInstance :=
  if b.id = none ∧ b.stash = none then
    { b with stash := some b.logo, logo := none }
  else b

mutual

/-- `save_logo_file` (post_save): on creation, when the stash attribute is
present, restore the stashed logo, drop the attribute and re-save the
instance.  The fuel bounds the nesting of `instance.save()` calls; the real
recursion stops after one round because the re-save is an update. -/
def save_logo_file : Nat → Bool → BrandingInstance → BrandingInstance
  | 0, _, b => b
  | fuel + 1, created, b =>
    if created then
      match b.stash with
      | some stashed => saveBrandingInstance fuel { b with logo := stashed, stash := none }
      | none => b
    else b

/-- `instance.save()` for a branding configuration: run the pre_save
receiver, perform the insert (assigning a fresh id) or update, and run the
post_save receiver with the corresponding `created` flag. -/
def saveBrandingInstance : Nat → BrandingInstance → BrandingInstance
  | 0, b => b
  | fuel + 1, b =>
    let b' := skip_saving_logo_file b
    match b'.id with
    | none => save_logo_file fuel true { b' with id := some 1 }
    | some _ => save_logo_file fuel false b'

end

/-! ## `create_enterprise_enrollment_receiver` -/

/-- Observable effects of the course-enrollment post_save receiver. -/
inductive EnrollSignalEffect
  | logWarning (userId : Nat)
  /-- `transaction.on_commit(submit_task)` where `submit_task` calls
  `create_enterprise_enrollment.apply_async(task_args, countdown=countdown)`:
  deferred, asynchronously scheduled work. -/
  | onCommitScheduleAsyncTask (courseId : String) (ecuId : Nat) (countdown : Nat)
  deriving Repr, DecidableEq

/-- Whether an effect is deferred or asynchronously scheduled work. -/
def EnrollSignalEffect.isDeferredWork : EnrollSignalEffect → Bool
  | .logWarning _ => false
  | .onCommitScheduleAsyncTask _ _ _ => true

/-- Default number of seconds used as the task countdown when the Django
setting is absent. -/
def DEFAULT_COUNTDOWN : Nat := 3

/-- Environment of the receiver: the `active=True` `EnterpriseCustomerUser`
row ids for the enrolling user in query order, and the optional
`CREATE_ENTERPRISE_ENROLLMENT_TASK_COUNTDOWN` setting. -/
structure EnrollSignalEnv where
  activeEcuIds : List Nat
  countdownSetting : Option Nat

/-- `create_enterprise_enrollment_receiver` (post_save of
`CourseEnrollment`): on a create with a user, take the first active
`EnterpriseCustomerUser`; do nothing when there is none; warn when there is
more than one; and schedule the `create_enterprise_enrollment` task on
commit with the configured or default countdown. -/
def create_enterprise_enrollment_receiver (env : EnrollSignalEnv) (created : Bool)
    (userId : Option Nat) (courseId : String) : List EnrollSignalEffect :=
  if created ∧ userId.isSome then
    match env.activeEcuIds with
    | [] => []
    | ecuId :: rest =>
      (if rest ≠ [] then [.logWarning (userId.getD 0)] else []) ++
      [.onCommitScheduleAsyncTask courseId ecuId (env.countdownSetting.getD DEFAULT_COUNTDOWN)]
  else []

/-! ## Specification-side helper predicates and closed forms -/

/-- A user account with this email exists. -/
def userExists (env : EnrollEnv) (email : String) : Bool :=
  (lookupUsername env.users email).isSome

/-- The user exists and the enrollment API call raises `HttpClientError`. -/
def enrollRaises (env : EnrollEnv) (c m email : String) : Bool :=
  match lookupUsername env.users email with
  | none => false
  | some u => (env.enrollError u c m).isSome

/-- The user exists and the enrollment API call succeeds. -/
def enrollOk (env : EnrollEnv) (c m email : String) : Bool :=
  match lookupUsername env.users email with
  | none => false
  | some u => (env.enrollError u c m).isNone

/-- The error-log record `_enroll_users` emits for this email, when any. -/
def logOf (env : EnrollEnv) (c m email : String) : Option String :=
  match lookupUsername env.users email with
  | none => none
  | some u =>
      (env.enrollError u c m).map
        (fun msg => "Error while enrolling user " ++ u ++ ": " ++ msg)

/-- Closed form of the `emails` set accumulated by `_handle_bulk_upload`'s
validation loop when every row validates: extend `seen` with the rows that
are neither already linked nor seen before. -/
def collectEmails (st : LinkState) (ec : Nat) : List String → List String → List String
  | seen, [] => seen
  | seen, e :: rest =>
    if (ec, e) ∈ st then collectEmails st ec seen rest
    else if e ∈ seen then collectEmails st ec seen rest
    else collectEmails st ec (seen ++ [e]) rest

/-- Closed form of the `duplicate_emails` list accumulated by
`_handle_bulk_upload`'s validation loop when every row validates. -/
def collectDups (st : LinkState) (ec : Nat) : List String → List String → List String
  | _, [] => []
  | seen, e :: rest =>
    if (ec, e) ∈ st then collectDups st ec seen rest
    else if e ∈ seen then e :: collectDups st ec seen rest
    else collectDups st ec (seen ++ [e]) rest

/-! ## Helper lemmas -/

theorem mem_link_user (st : LinkState) (ec : Nat) (email : String) (x : Nat × String) :
    x ∈ link_user st ec email ↔ x ∈ st ∨ x = (ec, email) := by
  unfold link_user
  split
  · rename_i h
    exact ⟨Or.inl, fun h' => h'.elim id (fun hx => hx ▸ h)⟩
  · simp

theorem mem_assign_learner_role (st : RoleAssignments) (u ec : Nat)
    (x : Nat × Nat × EnterpriseRole) :
    x ∈ assign_learner_role st u ec ↔ x ∈ st ∨ x = (u, ec, EnterpriseRole.learner) := by
  unfold assign_learner_role
  split
  · rename_i h
    exact ⟨Or.inl, fun h' => h'.elim id (fun hx => hx ▸ h)⟩
  · simp

/-- C3: on every save of an `EnterpriseCustomerCatalog`, when the catalog
service is reachable, the handler queries the service for a catalog with the
same uuid, creates a new remote catalog when none exists, updates the
existing one when one exists, and in either case refreshes the catalog; on
every delete, the remote catalog with that uuid is deleted. -/
theorem catalog_sync_on_save_delete (env : CatalogEnv) (created : Bool)
    (inst : CatalogInstance) (activeChannelExists : Bool) (h : env.connected = true) :
    (update_enterprise_catalog_data env created inst).head? =
      some (CatalogEffect.getCatalog inst.uuid created) ∧
    (env.remoteExists inst.uuid = false →
      CatalogEffect.createCatalog inst ∈ update_enterprise_catalog_data env created inst ∧
      CatalogEffect.updateCatalog inst ∉ update_enterprise_catalog_data env created inst) ∧
    (env.remoteExists inst.uuid = true →
      CatalogEffect.updateCatalog inst ∈ update_enterprise_catalog_data env created inst ∧
      CatalogEffect.createCatalog inst ∉ update_enterprise_catalog_data env created inst) ∧
    (update_enterprise_catalog_data env created inst).getLast? =
      some (CatalogEffect.refreshCatalogs inst.uuid) ∧
    CatalogEffect.deleteCatalog inst.uuid ∈
      delete_enterprise_catalog_data env inst activeChannelExists := by
  cases hre : env.remoteExists inst.uuid <;> cases activeChannelExists <;>
    simp [update_enterprise_catalog_data, delete_enterprise_catalog_data, h, hre]

theorem catalog_sync_on_save_delete_witness :
    (⟨true, fun _ => false⟩ : CatalogEnv).connected = true ∧
    ((update_enterprise_catalog_data ⟨true, fun _ => false⟩ true
        ⟨0, 0, "Acme", "All content", "cf", "verified", false, none, none, false⟩).getLast? =
      some (CatalogEffect.refreshCatalogs 0) ∧
     CatalogEffect.deleteCatalog 0 ∈
      delete_enterprise_catalog_data ⟨true, fun _ => false⟩
        ⟨0, 0, "Acme", "All content", "cf", "verified", false, none, none, false⟩ false) :=
  ⟨rfl,
   (catalog_sync_on_save_delete ⟨true, fun _ => false⟩ true
      ⟨0, 0, "Acme", "All content", "cf", "verified", false, none, none, false⟩ false rfl).2.2.2.1,
   (catalog_sync_on_save_delete ⟨true, fun _ => false⟩ true
      ⟨0, 0, "Acme", "All content", "cf", "verified", false, none, none, false⟩ false rfl).2.2.2.2⟩

/-- C4 counterexample: a single framework event — saving an
`EnterpriseCustomerCatalog` while the service is reachable — makes three
outbound HTTP calls (get, create, refresh), refuting "no handler ever
performs more than one outbound HTTP call per event". -/
theorem catalog_save_http_calls_exceed_one :
    ¬ ((update_enterprise_catalog_data ⟨true, fun _ => false⟩ true
        ⟨0, 0, "Acme", "All content", "cf", "verified", false, none, none, false⟩).countP
          CatalogEffect.isHttpCall ≤ 1) := by
  decide

theorem enrollLoop_spec (env : EnrollEnv) (c m : String) (emails : List String) :
    ∀ (en ne fa lg : List String) (ap : Nat),
    enrollLoop env c m en ne fa lg ap emails =
      (en ++ emails.filter (enrollOk env c m),
       ne ++ emails.filter (fun e => ! userExists env e),
       fa ++ emails.filter (enrollRaises env c m),
       lg ++ emails.filterMap (logOf env c m),
       ap + (emails.filter (userExists env)).length) := by
  induction emails with
  | nil => intro en ne fa lg ap; simp [enrollLoop]
  | cons e rest ih =>
    intro en ne fa lg ap
    cases hl : lookupUsername env.users e with
    | none =>
      simp only [enrollLoop, hl]
      rw [ih]
      simp [userExists, enrollOk, enrollRaises, logOf, hl, List.filter_cons,
        List.filterMap_cons]
    | some u =>
      cases he : env.enrollError u c m with
      | none =>
        simp only [enrollLoop, hl, he]
        rw [ih]
        simp [userExists, enrollOk, enrollRaises, logOf, hl, he, List.filter_cons,
          List.filterMap_cons]
        omega
      | some msg =>
        simp only [enrollLoop, hl, he]
        rw [ih]
        simp [userExists, enrollOk, enrollRaises, logOf, hl, he, List.filter_cons,
          List.filterMap_cons]
        omega

theorem logOf_length (env : EnrollEnv) (c m : String) (emails : List String) :
    (emails.filterMap (logOf env c m)).length =
      (emails.filter (enrollRaises env c m)).length := by
  induction emails with
  | nil => rfl
  | cons e rest ih =>
    cases hl : lookupUsername env.users e with
    | none =>
      simp [List.filterMap_cons, List.filter_cons, logOf, enrollRaises, hl, ih]
    | some u =>
      cases he : env.enrollError u c m <;>
        simp [List.filterMap_cons, List.filter_cons, logOf, enrollRaises, hl, he, ih]

theorem mem_updateOrCreatePendingEnrollment (pes : PendingEnrollments)
    (row x : Nat × String × String) :
    x ∈ updateOrCreatePendingEnrollment pes row ↔ x ∈ pes ∨ x = row := by
  unfold updateOrCreatePendingEnrollment
  split
  · rename_i h
    exact ⟨Or.inl, fun h' => h'.elim id (fun hx => hx ▸ h)⟩
  · simp

theorem recordPendingEnrollments_ok (pus : PendingUsers) (ec : Nat) (c m : String)
    (l : List String) :
    ∀ pes : PendingEnrollments,
    (∀ e ∈ l, (findPendingUser pus ec e).isSome) →
    ∃ pes', recordPendingEnrollments pus ec c m pes l = .ok pes' ∧
      (∀ x ∈ pes, x ∈ pes') ∧
      (∀ e ∈ l, ∃ pid, findPendingUser pus ec e = some pid ∧ (pid, c, m) ∈ pes') := by
  induction l with
  | nil => intro pes _; exact ⟨pes, rfl, fun x hx => hx, by simp⟩
  | cons e rest ih =>
    intro pes h
    obtain ⟨pid, hpid⟩ := Option.isSome_iff_exists.mp (h e (by simp))
    obtain ⟨pes', heq, hmono, hrest⟩ :=
      ih (updateOrCreatePendingEnrollment pes (pid, c, m))
        (fun x hx => h x (by simp [hx]))
    refine ⟨pes', by simp [recordPendingEnrollments, hpid, heq], ?_, ?_⟩
    · exact fun x hx =>
        hmono x ((mem_updateOrCreatePendingEnrollment _ _ _).mpr (Or.inl hx))
    · intro e' he'
      rcases List.mem_cons.mp he' with rfl | hmem
      · exact ⟨pid, hpid,
          hmono _ ((mem_updateOrCreatePendingEnrollment _ _ _).mpr (Or.inr rfl))⟩
      · exact hrest e' hmem

/-- C1: every email handed to `_enroll_users` ends in exactly one of three
disjoint outcomes — enrolled when the account exists and the API call
succeeds, recorded as non-existing (with a `PendingEnrollment` created or
kept for the matching `PendingEnterpriseCustomerUser`) when no account
exists, and failed with an error log when the API raises a client error —
and processing covers every email. -/
theorem enroll_users_outcomes (env : EnrollEnv) (pus : PendingUsers)
    (pes : PendingEnrollments) (ec : Nat) (emails : List String) (c m : String)
    (hpend : ∀ e ∈ emails, userExists env e = false → (findPendingUser pus ec e).isSome) :
    (∀ e, e ∈ (enroll_users env pus pes ec emails c m).enrolled ↔
       e ∈ emails ∧ enrollOk env c m e = true) ∧
    (∀ e, e ∈ (enroll_users env pus pes ec emails c m).nonExisting ↔
       e ∈ emails ∧ userExists env e = false) ∧
    (∀ e, e ∈ (enroll_users env pus pes ec emails c m).failed ↔
       e ∈ emails ∧ enrollRaises env c m e = true) ∧
    (∀ e ∈ emails,
       (e ∈ (enroll_users env pus pes ec emails c m).enrolled ∧
        e ∉ (enroll_users env pus pes ec emails c m).nonExisting ∧
        e ∉ (enroll_users env pus pes ec emails c m).failed) ∨
       (e ∉ (enroll_users env pus pes ec emails c m).enrolled ∧
        e ∈ (enroll_users env pus pes ec emails c m).nonExisting ∧
        e ∉ (enroll_users env pus pes ec emails c m).failed) ∨
       (e ∉ (enroll_users env pus pes ec emails c m).enrolled ∧
        e ∉ (enroll_users env pus pes ec emails c m).nonExisting ∧
        e ∈ (enroll_users env pus pes ec emails c m).failed)) ∧
    (enroll_users env pus pes ec emails c m).errorLogs.length =
      (enroll_users env pus pes ec emails c m).failed.length ∧
    (∃ pes', (enroll_users env pus pes ec emails c m).pendingEnrollments = .ok pes' ∧
      (∀ x ∈ pes, x ∈ pes') ∧
      ∀ e ∈ (enroll_users env pus pes ec emails c m).nonExisting,
        ∃ pid, findPendingUser pus ec e = some pid ∧ (pid, c, m) ∈ pes') := by
  have hspec := enrollLoop_spec env c m emails [] [] [] [] 0
  have hr : enroll_users env pus pes ec emails c m =
      { enrolled := emails.filter (enrollOk env c m),
        nonExisting := emails.filter (fun e => ! userExists env e),
        failed := emails.filter (enrollRaises env c m),
        errorLogs := emails.filterMap (logOf env c m),
        apiCalls := (emails.filter (userExists env)).length,
        pendingEnrollments := recordPendingEnrollments pus ec c m pes
          (emails.filter (fun e => ! userExists env e)) } := by
    unfold enroll_users
    rw [hspec]
    simp
  rw [hr]
  refine ⟨?_, ?_, ?_, ?_, ?_, ?_⟩
  · intro e; simp [List.mem_filter]
  · intro e; simp [List.mem_filter]
  · intro e; simp [List.mem_filter]
  · intro e he
    simp only [List.mem_filter, he, true_and]
    cases hl : lookupUsername env.users e with
    | none =>
      refine Or.inr (Or.inl ?_)
      simp [enrollOk, enrollRaises, userExists, hl]
    | some u =>
      cases hee : env.enrollError u c m with
      | none =>
        refine Or.inl ?_
        simp [enrollOk, enrollRaises, userExists, hl, hee]
      | some msg =>
        refine Or.inr (Or.inr ?_)
        simp [enrollOk, enrollRaises, userExists, hl, hee]
  · exact logOf_length env c m emails
  · refine recordPendingEnrollments_ok pus ec c m _ pes ?_
    intro e he
    have := List.mem_filter.mp he
    exact hpend e this.1 (by simpa using this.2)

theorem enroll_users_outcomes_witness :
    (∀ e ∈ ["new@x.org"],
       userExists ⟨[], fun _ _ _ => none⟩ e = false →
       (findPendingUser [(11, 5, "new@x.org")] 5 e).isSome) ∧
    (∃ pes',
      (enroll_users ⟨[], fun _ _ _ => none⟩ [(11, 5, "new@x.org")] [] 5
        ["new@x.org"] "course-v1:edX+DemoX+1" "audit").pendingEnrollments = .ok pes' ∧
      (∀ x ∈ ([] : PendingEnrollments), x ∈ pes') ∧
      ∀ e ∈ (enroll_users ⟨[], fun _ _ _ => none⟩ [(11, 5, "new@x.org")] [] 5
        ["new@x.org"] "course-v1:edX+DemoX+1" "audit").nonExisting,
        ∃ pid, findPendingUser [(11, 5, "new@x.org")] 5 e = some pid ∧
          (pid, "course-v1:edX+DemoX+1", "audit") ∈ pes') :=
  ⟨by decide,
   (enroll_users_outcomes ⟨[], fun _ _ _ => none⟩ [(11, 5, "new@x.org")] [] 5
      ["new@x.org"] "course-v1:edX+DemoX+1" "audit" (by decide)).2.2.2.2.2⟩

/-- C4 amended: handlers may perform several outbound HTTP calls per event —
the catalog post_save handler performs up to three (get, then create or
update, then refresh), the catalog post_delete handler at most one, and
`_enroll_users` one enrollment call per email whose user account exists
(hence up to one per email). -/
theorem http_calls_bounded :
    (∀ (env : CatalogEnv) (created : Bool) (inst : CatalogInstance),
       (update_enterprise_catalog_data env created inst).countP
         CatalogEffect.isHttpCall ≤ 3) ∧
    (∀ (env : CatalogEnv) (inst : CatalogInstance) (activeChannelExists : Bool),
       (delete_enterprise_catalog_data env inst activeChannelExists).countP
         CatalogEffect.isHttpCall ≤ 1) ∧
    (∀ (env : EnrollEnv) (pus : PendingUsers) (pes : PendingEnrollments) (ec : Nat)
       (emails : List String) (c m : String),
       (enroll_users env pus pes ec emails c m).apiCalls =
         (emails.filter (userExists env)).length ∧
       (enroll_users env pus pes ec emails c m).apiCalls ≤ emails.length) := by
  refine ⟨?_, ?_, ?_⟩
  · intro env created inst
    cases hc : env.connected <;> cases hre : env.remoteExists inst.uuid <;>
      simp [update_enterprise_catalog_data, hc, hre, CatalogEffect.isHttpCall,
        List.countP_cons, List.countP_nil, List.countP_append]
  · intro env inst activeChannelExists
    cases hc : env.connected <;> cases activeChannelExists <;>
      simp [delete_enterprise_catalog_data, hc, CatalogEffect.isHttpCall,
        List.countP_cons, List.countP_nil, List.countP_append]
  · intro env pus pes ec emails c m
    have hspec := enrollLoop_spec env c m emails [] [] [] [] 0
    have hcalls : (enroll_users env pus pes ec emails c m).apiCalls =
        (emails.filter (userExists env)).length := by
      unfold enroll_users
      rw [hspec]
      simp
    exact ⟨hcalls, hcalls ▸ List.length_filter_le _ _⟩

/-- C10 counterexample: `create_enterprise_enrollment_receiver` schedules
deferred, asynchronously executed work — on a created enrollment of a user
with one active `EnterpriseCustomerUser` it registers an on-commit hook that
submits the `create_enterprise_enrollment` celery task with the default
3-second countdown — refuting "no deferred or asynchronously scheduled
work". -/
theorem enrollment_receiver_schedules_async_counterexample :
    create_enterprise_enrollment_receiver ⟨[7], none⟩ true (some 5)
        "course-v1:edX+DemoX+1" =
      [EnrollSignalEffect.onCommitScheduleAsyncTask "course-v1:edX+DemoX+1" 7 3] ∧
    EnrollSignalEffect.isDeferredWork
      (EnrollSignalEffect.onCommitScheduleAsyncTask "course-v1:edX+DemoX+1" 7 3) = true := by
  exact ⟨rfl, rfl⟩

/-- C10 amended: the enrollment signal chain is not purely sequential — on
a created course enrollment of a user with at least one active
`EnterpriseCustomerUser` the receiver defers work, scheduling exactly one
asynchronous task on transaction commit with the configured countdown or
the default of 3 seconds; with no active `EnterpriseCustomerUser`, outside
a create, or without a user, it schedules nothing. -/
theorem enrollment_receiver_deferred_task (env : EnrollSignalEnv) (created : Bool)
    (userId : Option Nat) (courseId : String) :
    ((create_enterprise_enrollment_receiver env created userId courseId).countP
        EnrollSignalEffect.isDeferredWork ≤ 1) ∧
    (env.activeEcuIds = [] →
      create_enterprise_enrollment_receiver env created userId courseId = []) ∧
    (created = false →
      create_enterprise_enrollment_receiver env created userId courseId = []) ∧
    (userId = none →
      create_enterprise_enrollment_receiver env created userId courseId = []) ∧
    (∀ ecuId rest, env.activeEcuIds = ecuId :: rest → created = true → userId.isSome →
      (create_enterprise_enrollment_receiver env created userId courseId).countP
          EnrollSignalEffect.isDeferredWork = 1 ∧
      EnrollSignalEffect.onCommitScheduleAsyncTask courseId ecuId
          (env.countdownSetting.getD DEFAULT_COUNTDOWN) ∈
        create_enterprise_enrollment_receiver env created userId courseId) := by
  refine ⟨?_, ?_, ?_, ?_, ?_⟩
  · cases created with
    | false => simp [create_enterprise_enrollment_receiver]
    | true =>
      cases userId with
      | none => simp [create_enterprise_enrollment_receiver]
      | some u =>
        cases hecu : env.activeEcuIds with
        | nil => simp [create_enterprise_enrollment_receiver, hecu]
        | cons ecuId rest =>
          cases rest <;>
            simp [create_enterprise_enrollment_receiver, hecu, List.countP_cons,
              List.countP_append, List.countP_nil, EnrollSignalEffect.isDeferredWork]
  · intro h
    cases created <;> cases userId <;>
      simp [create_enterprise_enrollment_receiver, h]
  · intro h; subst h; simp [create_enterprise_enrollment_receiver]
  · intro h; subst h; simp [create_enterprise_enrollment_receiver]
  · intro ecuId rest hecu hcr hu
    subst hcr
    obtain ⟨u, rfl⟩ := Option.isSome_iff_exists.mp hu
    cases rest <;>
      simp [create_enterprise_enrollment_receiver, hecu, List.countP_cons,
        List.countP_append, List.countP_nil, EnrollSignalEffect.isDeferredWork]

theorem enrollment_receiver_deferred_task_witness :
    ((⟨[7, 9], some 10⟩ : EnrollSignalEnv).activeEcuIds = 7 :: [9] ∧
      (some 5 : Option Nat).isSome) ∧
    ((create_enterprise_enrollment_receiver ⟨[7, 9], some 10⟩ true (some 5)
        "course-v1:edX+DemoX+1").countP EnrollSignalEffect.isDeferredWork = 1 ∧
     EnrollSignalEffect.onCommitScheduleAsyncTask "course-v1:edX+DemoX+1" 7
         ((⟨[7, 9], some 10⟩ : EnrollSignalEnv).countdownSetting.getD DEFAULT_COUNTDOWN) ∈
       create_enterprise_enrollment_receiver ⟨[7, 9], some 10⟩ true (some 5)
         "course-v1:edX+DemoX+1") :=
  ⟨⟨rfl, rfl⟩,
   (enrollment_receiver_deferred_task ⟨[7, 9], some 10⟩ true (some 5)
      "course-v1:edX+DemoX+1").2.2.2.2 7 [9] rfl rfl rfl⟩

/-- C5 counterexample: the manage-learners delete handler catches two
exception types (`EnterpriseCustomerUser.DoesNotExist` and
`PendingEnterpriseCustomerUser.DoesNotExist`) and its error path returns a
distinct 404 HTTP response while logging nothing, and `_handle_bulk_upload`
accumulates validation errors into the form — refuting "no operation catches
more than one exception type, and no error path does anything other than
log". -/
theorem delete_handler_error_response_counterexample :
    (manage_learners_delete ⟨fun _ => .ecuDoesNotExist⟩ "Acme" "a@b.c").1.status = 404 ∧
    (manage_learners_delete ⟨fun _ => .ecuDoesNotExist⟩ "Acme" "a@b.c").2 = [] ∧
    (manage_learners_delete ⟨fun _ => .pendingDoesNotExist⟩ "Acme" "a@b.c").1.status = 404 ∧
    (manage_learners_delete ⟨fun _ => .pendingDoesNotExist⟩ "Acme" "a@b.c").2 = [] ∧
    UnlinkOutcome.ecuDoesNotExist ≠ UnlinkOutcome.pendingDoesNotExist ∧
    (handle_bulk_upload ⟨fun _ => false, fun s => s⟩ [] 0
        (.ok ["bad-email"])).formErrors ≠ [] := by
  refine ⟨rfl, rfl, rfl, rfl, by decide, by decide⟩

/-- C5 amended: error recovery is not uniformly catch-one-type-and-log —
the delete view catches both `DoesNotExist` exception types and returns a
404 HTTP response without logging (200 on success), `_handle_bulk_upload`
accumulates errors into form errors, while each catalog handler catches the
single `NotConnectedToOpenEdX` type: on that error the save handler only
logs the exception, and the delete handler logs the exception and makes no
HTTP call (it still proceeds to the integrated-channel audit check
afterwards). -/
theorem error_paths_amended :
    (∀ (env : DeleteEnv) (n e : String), env.unlinkResult e ≠ UnlinkOutcome.ok →
       (manage_learners_delete env n e).1.status = 404 ∧
       (manage_learners_delete env n e).2 = []) ∧
    (∀ (env : DeleteEnv) (n e : String), env.unlinkResult e = UnlinkOutcome.ok →
       (manage_learners_delete env n e).1.status = 200) ∧
    (∀ (env : LinkEnv) (st : LinkState) (ec : Nat) (msg : String),
       (handle_bulk_upload env st ec (.error msg)).formErrors = [BULK_LINK_FAILED, msg]) ∧
    (∀ (env : CatalogEnv) (created : Bool) (inst : CatalogInstance),
       env.connected = false →
       update_enterprise_catalog_data env created inst =
         [.logException ("Unable to update Enterprise Catalog " ++ toString inst.uuid)]) ∧
    (∀ (env : CatalogEnv) (inst : CatalogInstance) (activeChannelExists : Bool),
       env.connected = false →
       (delete_enterprise_catalog_data env inst activeChannelExists).countP
         CatalogEffect.isHttpCall = 0 ∧
       CatalogEffect.logException
           ("Unable to delete Enterprise Catalog " ++ toString inst.uuid) ∈
         delete_enterprise_catalog_data env inst activeChannelExists ∧
       delete_enterprise_catalog_data env inst activeChannelExists =
         [.logException ("Unable to delete Enterprise Catalog " ++ toString inst.uuid)] ++
         (if activeChannelExists then
           [.logInfo ("Catalog " ++ toString inst.uuid ++
             " deletion is linked to an active integrated channels config"),
            .scheduleTask "mark_orphaned_content_metadata_audit"]
         else [])) := by
  refine ⟨?_, ?_, ?_, ?_, ?_⟩
  · intro env n e h
    cases hu : env.unlinkResult e <;> simp [manage_learners_delete, hu] at h ⊢
  · intro env n e h
    simp [manage_learners_delete, h]
  · intro env st ec msg
    simp [handle_bulk_upload]
  · intro env created inst h
    simp [update_enterprise_catalog_data, h]
  · intro env inst activeChannelExists h
    cases activeChannelExists <;>
      simp [delete_enterprise_catalog_data, h, CatalogEffect.isHttpCall,
        List.countP_cons, List.countP_nil, List.countP_append]

theorem error_paths_amended_witness :
    ((⟨fun _ => .pendingDoesNotExist⟩ : DeleteEnv).unlinkResult "a@b.c" ≠
        UnlinkOutcome.ok) ∧
    (manage_learners_delete ⟨fun _ => .pendingDoesNotExist⟩ "Acme" "a@b.c").1.status = 404 ∧
    (manage_learners_delete ⟨fun _ => .pendingDoesNotExist⟩ "Acme" "a@b.c").2 = [] :=
  ⟨by decide,
   (error_paths_amended.1 ⟨fun _ => .pendingDoesNotExist⟩ "Acme" "a@b.c" (by decide)).1,
   (error_paths_amended.1 ⟨fun _ => .pendingDoesNotExist⟩ "Acme" "a@b.c" (by decide)).2⟩

/-- C7: for an `EnterpriseCustomerUser` record with a non-null user, the
enterprise_learner role assignment tracks the record's linked state — it is
assigned on create, re-assigned on a save with `linked` true, deleted on a
save unlinked, and on deletion of the record both the learner and the admin
role assignments for that user and enterprise customer are removed. -/
theorem learner_role_tracks_linked_state (inst : ECUInstance) (st : RoleAssignments)
    (u : Nat) (hu : inst.user = some u) :
    (u, inst.enterpriseCustomer, EnterpriseRole.learner) ∈
      assign_or_delete_enterprise_learner_role true inst st ∧
    (inst.linked = true →
      (u, inst.enterpriseCustomer, EnterpriseRole.learner) ∈
        assign_or_delete_enterprise_learner_role false inst st) ∧
    (inst.linked = false →
      (u, inst.enterpriseCustomer, EnterpriseRole.learner) ∉
        assign_or_delete_enterprise_learner_role false inst st) ∧
    (u, inst.enterpriseCustomer, EnterpriseRole.learner) ∉
      onEnterpriseCustomerUserDelete inst st ∧
    (u, inst.enterpriseCustomer, EnterpriseRole.admin) ∉
      onEnterpriseCustomerUserDelete inst st := by
  refine ⟨?_, ?_, ?_, ?_, ?_⟩
  · simp only [assign_or_delete_enterprise_learner_role, hu]
    simp [mem_assign_learner_role]
  · intro hl
    simp only [assign_or_delete_enterprise_learner_role, hu, hl]
    simp [mem_assign_learner_role]
  · intro hl
    simp only [assign_or_delete_enterprise_learner_role, hu, hl]
    simp [delete_learner_role_assignment, List.mem_filter]
  · simp only [onEnterpriseCustomerUserDelete, delete_enterprise_learner_role_assignment,
      delete_enterprise_admin_role_assignment, hu]
    simp [delete_learner_role_assignment, List.mem_filter]
  · simp only [onEnterpriseCustomerUserDelete, delete_enterprise_learner_role_assignment,
      delete_enterprise_admin_role_assignment, hu]
    simp [delete_learner_role_assignment, delete_admin_role_assignment, List.mem_filter]

theorem learner_role_tracks_linked_state_witness :
    (⟨some 4, 9, true⟩ : ECUInstance).user = some 4 ∧
    ((4, 9, EnterpriseRole.learner) ∈
       assign_or_delete_enterprise_learner_role true ⟨some 4, 9, true⟩ [] ∧
     (4, 9, EnterpriseRole.learner) ∉
       onEnterpriseCustomerUserDelete ⟨some 4, 9, true⟩
         [(4, 9, EnterpriseRole.learner), (4, 9, EnterpriseRole.admin)] ∧
     (4, 9, EnterpriseRole.admin) ∉
       onEnterpriseCustomerUserDelete ⟨some 4, 9, true⟩
         [(4, 9, EnterpriseRole.learner), (4, 9, EnterpriseRole.admin)]) :=
  ⟨rfl,
   (learner_role_tracks_linked_state ⟨some 4, 9, true⟩ [] 4 rfl).1,
   (learner_role_tracks_linked_state ⟨some 4, 9, true⟩
      [(4, 9, EnterpriseRole.learner), (4, 9, EnterpriseRole.admin)] 4 rfl).2.2.2.1,
   (learner_role_tracks_linked_state ⟨some 4, 9, true⟩
      [(4, 9, EnterpriseRole.learner), (4, 9, EnterpriseRole.admin)] 4 rfl).2.2.2.2⟩

/-- C8: every `PendingEnterpriseCustomerAdminUser` has a matching
`PendingEnterpriseCustomerUser` with the same enterprise customer and email,
and the signal handlers maintain this: saving gets-or-creates the matching
pending user, deleting deletes it, and both operations preserve the
invariant (assuming the admin rows are unique, as a save never duplicates
them). -/
theorem pending_admin_invariant_maintained (st : PendingAdminState)
    (inst : Nat × String) (hadm : st.admins.Nodup)
    (hinv : pendingAdminInvariant st) :
    inst ∈ (savePendingAdmin st inst).pendingUsers ∧
    inst ∉ (deletePendingAdmin st inst).pendingUsers ∧
    pendingAdminInvariant (savePendingAdmin st inst) ∧
    pendingAdminInvariant (deletePendingAdmin st inst) ∧
    (savePendingAdmin st inst).admins.Nodup ∧
    (deletePendingAdmin st inst).admins.Nodup := by
  refine ⟨?_, ?_, ?_, ?_, ?_, ?_⟩
  · simp only [savePendingAdmin, create_pending_enterprise_admin_user]
    split <;> simp_all
  · simp [deletePendingAdmin, delete_pending_enterprise_admin_user, List.mem_filter]
  · intro a ha
    simp only [savePendingAdmin] at ha
    simp only [savePendingAdmin, create_pending_enterprise_admin_user]
    have hmem : a ∈ st.admins ∨ a = inst := by
      by_cases hin : inst ∈ st.admins
      · simp only [hin, if_pos] at ha; exact Or.inl ha
      · simp only [hin, if_neg, not_false_iff] at ha
        rcases List.mem_append.mp ha with h | h
        · exact Or.inl h
        · exact Or.inr (by simpa using h)
    rcases hmem with h | rfl
    · have := hinv a h
      split <;> simp_all
    · split <;> simp_all
  · intro a ha
    simp only [deletePendingAdmin] at ha
    simp only [deletePendingAdmin, delete_pending_enterprise_admin_user]
    have hne : a ≠ inst ∧ a ∈ st.admins := (List.Nodup.mem_erase_iff hadm).mp ha
    exact List.mem_filter.mpr ⟨hinv a hne.2, by simp [hne.1]⟩
  · simp only [savePendingAdmin]
    split
    · exact hadm
    · rename_i hin
      simp [List.nodup_append, hadm, hin]
  · exact hadm.erase inst

theorem pending_admin_invariant_maintained_witness :
    (([(3, "admin@x.org")] : List (Nat × String)).Nodup ∧
      pendingAdminInvariant ⟨[(3, "admin@x.org")], [(3, "admin@x.org")]⟩) ∧
    ((7, "new@x.org") ∈
       (savePendingAdmin ⟨[(3, "admin@x.org")], [(3, "admin@x.org")]⟩
         (7, "new@x.org")).pendingUsers ∧
     (7, "new@x.org") ∉
       (deletePendingAdmin ⟨[(3, "admin@x.org")], [(3, "admin@x.org")]⟩
         (7, "new@x.org")).pendingUsers) :=
  ⟨⟨by decide, by simp [pendingAdminInvariant]⟩,
   (pending_admin_invariant_maintained ⟨[(3, "admin@x.org")], [(3, "admin@x.org")]⟩
      (7, "new@x.org") (by decide) (by simp [pendingAdminInvariant])).1,
   (pending_admin_invariant_maintained ⟨[(3, "admin@x.org")], [(3, "admin@x.org")]⟩
      (7, "new@x.org") (by decide) (by simp [pendingAdminInvariant])).2.1⟩

theorem save_logo_file_not_created (n : Nat) (b : BrandingInstance) :
    save_logo_file n false b = b := by
  cases n with
  | zero => rfl
  | succ k => simp [save_logo_file]

theorem saveBrandingInstance_existing (n : Nat) (b : BrandingInstance)
    (h : b.id.isSome) : saveBrandingInstance n b = b := by
  cases n with
  | zero => rfl
  | succ k =>
    obtain ⟨i, hi⟩ := Option.isSome_iff_exists.mp h
    have hskip : skip_saving_logo_file b = b := by
      simp [skip_saving_logo_file, hi]
    simp only [saveBrandingInstance, hskip, hi]
    exact save_logo_file_not_created k b

/-- C9: for a newly created `EnterpriseCustomerBrandingConfiguration` the
logo round-trips through the stash-and-restore pair — the pre_save handler
stashes the assigned logo and clears the field, and the post_save handler on
creation restores it and re-saves, so the persisted logo equals the
originally assigned one — while for an instance that already has an id
neither handler changes the logo. -/
theorem branding_logo_round_trip (n : Nat) (b : BrandingInstance)
    (hid : b.id = none) (hstash : b.stash = none) :
    (saveBrandingInstance (n + 2) b).logo = b.logo ∧
    (saveBrandingInstance (n + 2) b).id.isSome ∧
    (∀ b2 : BrandingInstance, b2.id.isSome → skip_saving_logo_file b2 = b2) ∧
    (∀ (m : Nat) (b2 : BrandingInstance), save_logo_file m false b2 = b2) ∧
    (∀ (m : Nat) (b2 : BrandingInstance), b2.id.isSome →
      (saveBrandingInstance m b2).logo = b2.logo) := by
  refine ⟨?_, ?_, ?_, ?_, ?_⟩
  · have hskip : skip_saving_logo_file b =
        { b with stash := some b.logo, logo := none } := by
      simp [skip_saving_logo_file, hid, hstash]
    simp only [saveBrandingInstance, hskip, hid]
    simp only [save_logo_file]
    exact congrArg BrandingInstance.logo
      (saveBrandingInstance_existing n
        { b with id := some 1, logo := b.logo, stash := none } rfl) |>.trans rfl
  · have hskip : skip_saving_logo_file b =
        { b with stash := some b.logo, logo := none } := by
      simp [skip_saving_logo_file, hid, hstash]
    simp only [saveBrandingInstance, hskip, hid]
    simp only [save_logo_file]
    rw [saveBrandingInstance_existing n
      { b with id := some 1, logo := b.logo, stash := none } rfl]
    simp
  · intro b2 h
    obtain ⟨i, hi⟩ := Option.isSome_iff_exists.mp h
    simp [skip_saving_logo_file, hi]
  · exact fun m b2 => save_logo_file_not_created m b2
  · exact fun m b2 h => congrArg BrandingInstance.logo
      (saveBrandingInstance_existing m b2 h)

theorem branding_logo_round_trip_witness :
    ((⟨none, some "logo.png", none⟩ : BrandingInstance).id = none ∧
      (⟨none, some "logo.png", none⟩ : BrandingInstance).stash = none) ∧
    (saveBrandingInstance 2 ⟨none, some "logo.png", none⟩).logo = some "logo.png" ∧
    (saveBrandingInstance 2 ⟨none, some "logo.png", none⟩).id.isSome :=
  ⟨⟨rfl, rfl⟩,
   (branding_logo_round_trip 0 ⟨none, some "logo.png", none⟩ rfl rfl).1,
   (branding_logo_round_trip 0 ⟨none, some "logo.png", none⟩ rfl rfl).2.1⟩

theorem bulkValidate_spec (env : LinkEnv) (st : LinkState) (ec : Nat)
    (rows : List String) :
    ∀ (idx : Nat) (errors emails already dups : List String),
    (∀ e ∈ rows, env.validEmail e = true) →
    bulkValidate env st ec idx errors emails already dups rows =
      (errors,
       collectEmails st ec emails rows,
       already ++ rows.filter (fun e => decide ((ec, e) ∈ st)),
       dups ++ collectDups st ec emails rows) := by
  induction rows with
  | nil =>
    intro idx errors emails already dups _
    simp [bulkValidate, collectEmails, collectDups]
  | cons e rest ih =>
    intro idx errors emails already dups hv
    have hve : env.validEmail e = true := hv e (by simp)
    have hvr : ∀ x ∈ rest, env.validEmail x = true := fun x hx => hv x (by simp [hx])
    have hval : validate_email_to_link env st ec e true = .ok (decide ((ec, e) ∈ st)) := by
      simp [validate_email_to_link, hve]
    by_cases hmem : (ec, e) ∈ st
    · simp only [bulkValidate, hval]
      rw [if_pos (by simpa using hmem)]
      rw [ih (idx + 1) errors emails (already ++ [e]) dups hvr]
      simp [collectEmails, collectDups, hmem, List.filter_cons, List.append_assoc]
    · by_cases hseen : e ∈ emails
      · simp only [bulkValidate, hval]
        rw [if_neg (by simpa using hmem), if_pos hseen]
        rw [ih (idx + 1) errors emails already (dups ++ [e]) hvr]
        simp [collectEmails, collectDups, hmem, hseen, List.filter_cons,
          List.append_assoc]
      · simp only [bulkValidate, hval]
        rw [if_neg (by simpa using hmem), if_neg hseen]
        rw [ih (idx + 1) errors (emails ++ [e]) already dups hvr]
        simp [collectEmails, collectDups, hmem, hseen, List.filter_cons]

theorem collectEmails_mem (st : LinkState) (ec : Nat) (rows : List String) :
    ∀ (seen : List String) (a : String),
    a ∈ collectEmails st ec seen rows ↔ a ∈ seen ∨ (a ∈ rows ∧ (ec, a) ∉ st) := by
  induction rows with
  | nil => intro seen a; simp [collectEmails]
  | cons e rest ih =>
    intro seen a
    by_cases hmem : (ec, e) ∈ st
    · simp only [collectEmails, if_pos hmem]
      rw [ih]
      constructor
      · rintro (h | ⟨h1, h2⟩)
        · exact Or.inl h
        · exact Or.inr ⟨List.mem_cons_of_mem _ h1, h2⟩
      · rintro (h | ⟨h1, h2⟩)
        · exact Or.inl h
        · rcases List.mem_cons.mp h1 with rfl | h1
          · exact absurd hmem h2
          · exact Or.inr ⟨h1, h2⟩
    · by_cases hseen : e ∈ seen
      · simp only [collectEmails, if_neg hmem, if_pos hseen]
        rw [ih]
        constructor
        · rintro (h | ⟨h1, h2⟩)
          · exact Or.inl h
          · exact Or.inr ⟨List.mem_cons_of_mem _ h1, h2⟩
        · rintro (h | ⟨h1, h2⟩)
          · exact Or.inl h
          · rcases List.mem_cons.mp h1 with rfl | h1
            · exact Or.inl hseen
            · exact Or.inr ⟨h1, h2⟩
      · simp only [collectEmails, if_neg hmem, if_neg hseen]
        rw [ih]
        constructor
        · rintro (h | ⟨h1, h2⟩)
          · rcases List.mem_append.mp h with h | h
            · exact Or.inl h
            · have : a = e := by simpa using h
              subst this
              exact Or.inr ⟨List.mem_cons_self _ _, hmem⟩
          · exact Or.inr ⟨List.mem_cons_of_mem _ h1, h2⟩
        · rintro (h | ⟨h1, h2⟩)
          · exact Or.inl (List.mem_append.mpr (Or.inl h))
          · rcases List.mem_cons.mp h1 with rfl | h1
            · exact Or.inl (List.mem_append.mpr (Or.inr (by simp)))
            · exact Or.inr ⟨h1, h2⟩

theorem collectEmails_nodup (st : LinkState) (ec : Nat) (rows : List String) :
    ∀ seen : List String, seen.Nodup → (collectEmails st ec seen rows).Nodup := by
  induction rows with
  | nil => intro seen h; simpa [collectEmails] using h
  | cons e rest ih =>
    intro seen h
    by_cases hmem : (ec, e) ∈ st
    · simp only [collectEmails, if_pos hmem]; exact ih seen h
    · by_cases hseen : e ∈ seen
      · simp only [collectEmails, if_neg hmem, if_pos hseen]; exact ih seen h
      · simp only [collectEmails, if_neg hmem, if_neg hseen]
        exact ih _ (by simp [List.nodup_append, h, hseen])

theorem collectDups_mem (st : LinkState) (ec : Nat) (rows : List String) :
    ∀ (seen : List String) (a : String),
    a ∈ collectDups st ec seen rows ↔
      (ec, a) ∉ st ∧ ((a ∈ seen ∧ a ∈ rows) ∨ 2 ≤ rows.count a) := by
  induction rows with
  | nil => intro seen a; simp [collectDups]
  | cons e rest ih =>
    intro seen a
    by_cases hmem : (ec, e) ∈ st
    · simp only [collectDups, if_pos hmem]
      rw [ih seen a]
      constructor
      · rintro ⟨hst, h⟩
        refine ⟨hst, ?_⟩
        rcases h with ⟨h1, h2⟩ | h2
        · exact Or.inl ⟨h1, List.mem_cons_of_mem _ h2⟩
        · exact Or.inr (le_trans h2
            (by rw [List.count_cons]; exact Nat.le_add_right _ _))
      · rintro ⟨hst, h⟩
        refine ⟨hst, ?_⟩
        have hne : a ≠ e := fun h' => hst (h' ▸ hmem)
        rcases h with ⟨h1, h2⟩ | h2
        · rcases List.mem_cons.mp h2 with rfl | h2
          · exact absurd hmem hst
          · exact Or.inl ⟨h1, h2⟩
        · simp [List.count_cons, Ne.symm hne] at h2
          exact Or.inr h2
    · by_cases hseen : e ∈ seen
      · simp only [collectDups, if_neg hmem, if_pos hseen]
        rw [List.mem_cons, ih seen a]
        constructor
        · rintro (rfl | ⟨hst, h⟩)
          · exact ⟨hmem, Or.inl ⟨hseen, List.mem_cons_self _ _⟩⟩
          · refine ⟨hst, ?_⟩
            rcases h with ⟨h1, h2⟩ | h2
            · exact Or.inl ⟨h1, List.mem_cons_of_mem _ h2⟩
            · exact Or.inr (le_trans h2
                (by rw [List.count_cons]; exact Nat.le_add_right _ _))
        · rintro ⟨hst, h⟩
          by_cases hae : a = e
          · exact Or.inl hae
          · refine Or.inr ⟨hst, ?_⟩
            rcases h with ⟨h1, h2⟩ | h2
            · rcases List.mem_cons.mp h2 with rfl | h2
              · exact absurd rfl hae
              · exact Or.inl ⟨h1, h2⟩
            · simp [List.count_cons, Ne.symm hae] at h2
              exact Or.inr h2
      · simp only [collectDups, if_neg hmem, if_neg hseen]
        rw [ih (seen ++ [e]) a]
        constructor
        · rintro ⟨hst, h⟩
          refine ⟨hst, ?_⟩
          by_cases hae : a = e
          · subst hae
            rcases h with ⟨_, h2⟩ | h2
            · refine Or.inr ?_
              have : 0 < rest.count a := List.count_pos_iff.mpr h2
              rw [List.count_cons_self]
              omega
            · refine Or.inr ?_
              rw [List.count_cons_self]
              omega
          · rcases h with ⟨h1, h2⟩ | h2
            · have h1' : a ∈ seen := by
                rcases List.mem_append.mp h1 with h | h
                · exact h
                · exact absurd (by simpa using h) hae
              exact Or.inl ⟨h1', List.mem_cons_of_mem _ h2⟩
            · refine Or.inr ?_
              simp [List.count_cons, Ne.symm hae]
              omega
        · rintro ⟨hst, h⟩
          refine ⟨hst, ?_⟩
          by_cases hae : a = e
          · subst hae
            rcases h with ⟨h1, _⟩ | h2
            · exact absurd h1 hseen
            · rw [List.count_cons_self] at h2
              have hmem2 : a ∈ rest := List.count_pos_iff.mp (by omega)
              exact Or.inl ⟨List.mem_append.mpr (Or.inr (by simp)), hmem2⟩
          · rcases h with ⟨h1, h2⟩ | h2
            · rcases List.mem_cons.mp h2 with rfl | h2
              · exact absurd rfl hae
              · exact Or.inl ⟨List.mem_append.mpr (Or.inl h1), h2⟩
            · simp [List.count_cons, Ne.symm hae] at h2
              exact Or.inr h2

theorem foldl_link_user_mem (ec : Nat) (l : List String) :
    ∀ (st : LinkState) (x : Nat × String),
    x ∈ l.foldl (fun s e => link_user s ec e) st ↔ x ∈ st ∨ ∃ e ∈ l, x = (ec, e) := by
  induction l with
  | nil => intro st x; simp
  | cons e rest ih =>
    intro st x
    simp only [List.foldl_cons]
    rw [ih, mem_link_user]
    constructor
    · rintro ((h | h) | ⟨e', he', rfl⟩)
      · exact Or.inl h
      · exact Or.inr ⟨e, by simp, h⟩
      · exact Or.inr ⟨e', List.mem_cons_of_mem _ he', rfl⟩
    · rintro (h | ⟨e', he', rfl⟩)
      · exact Or.inl (Or.inl h)
      · rcases List.mem_cons.mp he' with rfl | he'
        · exact Or.inl (Or.inr rfl)
        · exact Or.inr ⟨e', he', rfl⟩

theorem link_user_nodup (st : LinkState) (ec : Nat) (email : String)
    (h : st.Nodup) : (link_user st ec email).Nodup := by
  unfold link_user
  split
  · exact h
  · rename_i hmem; simp [List.nodup_append, h, hmem]

theorem foldl_link_user_nodup (ec : Nat) (l : List String) :
    ∀ st : LinkState, st.Nodup → (l.foldl (fun s e => link_user s ec e) st).Nodup := by
  induction l with
  | nil => intro st h; simpa using h
  | cons e rest ih => intro st h; exact ih _ (link_user_nodup st ec e h)

/-- C2: in single mode a submission resolving to a valid, not-already-linked
email links exactly that email and returns it as a one-element list; in bulk
mode with no validation errors every distinct not-already-linked email from
the CSV is linked exactly once, duplicates and already-linked emails are
skipped and reported as warnings, and the handler returns the newly linked
emails together with the already-linked ones. -/
theorem manage_learners_linking (env : LinkEnv) (st : LinkState) (ec : Nat)
    (fieldValue : String) (rows : List String)
    (hv : env.validEmail (env.emailOf fieldValue) = true)
    (hnl : (ec, env.emailOf fieldValue) ∉ st)
    (hrows : ∀ e ∈ rows, env.validEmail e = true) :
    ((handle_singular env st ec fieldValue).returned = some [env.emailOf fieldValue] ∧
     (handle_singular env st ec fieldValue).state = st ++ [(ec, env.emailOf fieldValue)] ∧
     (handle_singular env st ec fieldValue).formErrors = []) ∧
    ((handle_bulk_upload env st ec (.ok rows)).formErrors = [] ∧
     (∀ e ∈ rows, (ec, e) ∈ (handle_bulk_upload env st ec (.ok rows)).state) ∧
     (∀ (a : Nat) (e : String),
        (a, e) ∈ (handle_bulk_upload env st ec (.ok rows)).state ↔
          (a, e) ∈ st ∨ (a = ec ∧ e ∈ rows)) ∧
     (st.Nodup → (handle_bulk_upload env st ec (.ok rows)).state.Nodup) ∧
     (∃ newLinked,
        (handle_bulk_upload env st ec (.ok rows)).returned =
          some (newLinked ++ (handle_bulk_upload env st ec (.ok rows)).warnAlreadyLinked) ∧
        newLinked.Nodup ∧
        (∀ e, e ∈ newLinked ↔ e ∈ rows ∧ (ec, e) ∉ st) ∧
        (∀ e, e ∈ (handle_bulk_upload env st ec (.ok rows)).warnAlreadyLinked ↔
           e ∈ rows ∧ (ec, e) ∈ st) ∧
        (∀ e, e ∈ (handle_bulk_upload env st ec (.ok rows)).warnDuplicates ↔
           (ec, e) ∉ st ∧ 2 ≤ rows.count e))) := by
  constructor
  · have hval : validate_email_to_link env st ec (env.emailOf fieldValue) false =
        .ok (decide ((ec, env.emailOf fieldValue) ∈ st)) := by
      simp [validate_email_to_link, hv, hnl]
    refine ⟨?_, ?_, ?_⟩ <;> simp [handle_singular, hval, link_user, hnl]
  · have hbv := bulkValidate_spec env st ec rows 0 [] [] [] [] hrows
    have hr : handle_bulk_upload env st ec (.ok rows) =
        { state := (collectEmails st ec [] rows).foldl (fun s e => link_user s ec e) st,
          returned := some (collectEmails st ec [] rows ++
            rows.filter (fun e => decide ((ec, e) ∈ st))),
          formErrors := [],
          warnAlreadyLinked := rows.filter (fun e => decide ((ec, e) ∈ st)),
          warnDuplicates := collectDups st ec [] rows } := by
      simp [handle_bulk_upload, hbv]
    rw [hr]
    refine ⟨rfl, ?_, ?_, ?_, ?_⟩
    · intro e he
      rw [foldl_link_user_mem]
      by_cases hmem : (ec, e) ∈ st
      · exact Or.inl hmem
      · exact Or.inr ⟨e, (collectEmails_mem st ec rows [] e).mpr (Or.inr ⟨he, hmem⟩), rfl⟩
    · intro a e
      rw [foldl_link_user_mem]
      constructor
      · rintro (h | ⟨e', he', heq⟩)
        · exact Or.inl h
        · have ha : a = ec := congrArg Prod.fst heq
          have he2 : e = e' := congrArg Prod.snd heq
          rcases (collectEmails_mem st ec rows [] e').mp he' with h | ⟨h1, _⟩
          · simp at h
          · exact Or.inr ⟨ha, by rw [he2]; exact h1⟩
      · rintro (h | ⟨ha, he⟩)
        · exact Or.inl h
        · by_cases hmem : (a, e) ∈ st
          · exact Or.inl hmem
          · refine Or.inr ⟨e, (collectEmails_mem st ec rows [] e).mpr
              (Or.inr ⟨he, ?_⟩), by rw [ha]⟩
            rw [← ha]
            exact hmem
    · exact fun h => foldl_link_user_nodup ec _ st h
    · refine ⟨collectEmails st ec [] rows, rfl,
        collectEmails_nodup st ec rows [] (by simp), ?_, ?_, ?_⟩
      · intro e
        rw [collectEmails_mem]
        simp
      · intro e
        simp [List.mem_filter]
      · intro e
        rw [collectDups_mem st ec rows [] e]
        simp

theorem manage_learners_linking_witness :
    ((⟨fun _ => true, fun s => s⟩ : LinkEnv).validEmail
        ((⟨fun _ => true, fun s => s⟩ : LinkEnv).emailOf "solo@x.org") = true ∧
     (1, (⟨fun _ => true, fun s => s⟩ : LinkEnv).emailOf "solo@x.org") ∉
        ([(1, "old@x.org")] : LinkState) ∧
     (∀ e ∈ ["a@x.org", "old@x.org", "a@x.org"],
        (⟨fun _ => true, fun s => s⟩ : LinkEnv).validEmail e = true)) ∧
    ((handle_singular ⟨fun _ => true, fun s => s⟩ [(1, "old@x.org")] 1
        "solo@x.org").returned = some ["solo@x.org"] ∧
     ∀ e ∈ ["a@x.org", "old@x.org", "a@x.org"],
       (1, e) ∈ (handle_bulk_upload ⟨fun _ => true, fun s => s⟩ [(1, "old@x.org")] 1
         (.ok ["a@x.org", "old@x.org", "a@x.org"])).state) :=
  ⟨⟨rfl, by decide, by decide⟩,
   (manage_learners_linking ⟨fun _ => true, fun s => s⟩ [(1, "old@x.org")] 1
      "solo@x.org" ["a@x.org", "old@x.org", "a@x.org"] rfl (by decide) (by decide)).1.1,
   (manage_learners_linking ⟨fun _ => true, fun s => s⟩ [(1, "old@x.org")] 1
      "solo@x.org" ["a@x.org", "old@x.org", "a@x.org"] rfl (by decide) (by decide)).2.2.1⟩

theorem bulkValidate_errors_extend (env : LinkEnv) (st : LinkState) (ec : Nat)
    (rows : List String) :
    ∀ (idx : Nat) (errors emails already dups : List String),
    ∃ tail, (bulkValidate env st ec idx errors emails already dups rows).1 =
      errors ++ tail := by
  induction rows with
  | nil =>
    intro idx errors emails already dups
    exact ⟨[], by simp [bulkValidate]⟩
  | cons e rest ih =>
    intro idx errors emails already dups
    cases hval : validate_email_to_link env st ec e true with
    | error msg =>
      simp only [bulkValidate, hval]
      obtain ⟨tail, ht⟩ := ih (idx + 1)
        (errors ++ ["Error at line " ++ toString (idx + 1) ++ ": " ++ msg])
        emails already dups
      exact ⟨("Error at line " ++ toString (idx + 1) ++ ": " ++ msg) :: tail,
        by rw [ht]; simp⟩
    | ok al =>
      cases al with
      | true =>
        simp only [bulkValidate, hval]
        simpa using ih (idx + 1) errors emails (already ++ [e]) dups
      | false =>
        by_cases hseen : e ∈ emails
        · simp only [bulkValidate, hval]
          rw [if_neg (by simp), if_pos hseen]
          exact ih (idx + 1) errors emails already (dups ++ [e])
        · simp only [bulkValidate, hval]
          rw [if_neg (by simp), if_neg hseen]
          exact ih (idx + 1) errors (emails ++ [e]) already dups

theorem bulkValidate_invalid_errors (env : LinkEnv) (st : LinkState) (ec : Nat)
    (rows : List String) :
    ∀ (idx : Nat) (errors emails already dups : List String) (e : String),
    e ∈ rows → env.validEmail e = false →
    (bulkValidate env st ec idx errors emails already dups rows).1 ≠ [] := by
  induction rows with
  | nil => intro _ _ _ _ _ e he _; simp at he
  | cons r rest ih =>
    intro idx errors emails already dups e he hv
    rcases List.mem_cons.mp he with rfl | he
    · have hval : validate_email_to_link env st ec e true =
          .error ("invalid email " ++ e) := by
        simp [validate_email_to_link, hv]
      simp only [bulkValidate, hval]
      obtain ⟨tail, ht⟩ := bulkValidate_errors_extend env st ec rest (idx + 1)
        (errors ++ ["Error at line " ++ toString (idx + 1) ++ ": " ++
          ("invalid email " ++ e)]) emails already dups
      rw [ht]
      simp
    · cases hval : validate_email_to_link env st ec r true with
      | error msg =>
        simp only [bulkValidate, hval]
        exact ih _ _ _ _ _ e he hv
      | ok al =>
        cases al with
        | true =>
          simp only [bulkValidate, hval]
          rw [if_pos (by simp)]
          exact ih _ _ _ _ _ e he hv
        | false =>
          by_cases hseen : r ∈ emails
          · simp only [bulkValidate, hval]
            rw [if_neg (by simp), if_pos hseen]
            exact ih _ _ _ _ _ e he hv
          · simp only [bulkValidate, hval]
            rw [if_neg (by simp), if_neg hseen]
            exact ih _ _ _ _ _ e he hv

/-- C6: bulk CSV linking is atomic with respect to validation errors — when
parsing fails or any row's email fails validation, `_handle_bulk_upload`
links no user at all: errors over the entire file are collected first and
`link_user` runs only when the collected error list is empty. -/
theorem handle_bulk_upload_atomic :
    (∀ (env : LinkEnv) (st : LinkState) (ec : Nat) (csv : Except String (List String)),
       (handle_bulk_upload env st ec csv).formErrors ≠ [] →
       (handle_bulk_upload env st ec csv).state = st ∧
       (handle_bulk_upload env st ec csv).returned = none) ∧
    (∀ (env : LinkEnv) (st : LinkState) (ec : Nat) (msg : String),
       (handle_bulk_upload env st ec (.error msg)).formErrors ≠ []) ∧
    (∀ (env : LinkEnv) (st : LinkState) (ec : Nat) (rows : List String) (e : String),
       e ∈ rows → env.validEmail e = false →
       (handle_bulk_upload env st ec (.ok rows)).formErrors ≠ [] ∧
       (handle_bulk_upload env st ec (.ok rows)).state = st ∧
       (handle_bulk_upload env st ec (.ok rows)).returned = none) := by
  refine ⟨?_, ?_, ?_⟩
  · intro env st ec csv h
    cases csv with
    | error msg => constructor <;> simp [handle_bulk_upload]
    | ok rows =>
      rcases hbv : bulkValidate env st ec 0 [] [] [] [] rows with
        ⟨errors, emails, already, dups⟩
      by_cases herr : errors = []
      · subst herr
        simp [handle_bulk_upload, hbv] at h
      · constructor <;> simp [handle_bulk_upload, hbv, herr]
  · intro env st ec msg
    simp [handle_bulk_upload]
  · intro env st ec rows e he hv
    have hne := bulkValidate_invalid_errors env st ec rows 0 [] [] [] [] e he hv
    rcases hbv : bulkValidate env st ec 0 [] [] [] [] rows with
      ⟨errors, emails, already, dups⟩
    rw [hbv] at hne
    refine ⟨?_, ?_, ?_⟩ <;> simp [handle_bulk_upload, hbv, hne]

theorem handle_bulk_upload_atomic_witness :
    ("not-an-email" ∈ (["ok@x.org", "not-an-email"] : List String) ∧
     (⟨fun e => e ≠ "not-an-email", fun s => s⟩ : LinkEnv).validEmail
        "not-an-email" = false) ∧
    ((handle_bulk_upload ⟨fun e => e ≠ "not-an-email", fun s => s⟩
        [(1, "old@x.org")] 1 (.ok ["ok@x.org", "not-an-email"])).formErrors ≠ [] ∧
     (handle_bulk_upload ⟨fun e => e ≠ "not-an-email", fun s => s⟩
        [(1, "old@x.org")] 1 (.ok ["ok@x.org", "not-an-email"])).state =
          [(1, "old@x.org")] ∧
     (handle_bulk_upload ⟨fun e => e ≠ "not-an-email", fun s => s⟩
        [(1, "old@x.org")] 1 (.ok ["ok@x.org", "not-an-email"])).returned = none) :=
  ⟨⟨by decide, by decide⟩,
   handle_bulk_upload_atomic.2.2 ⟨fun e => e ≠ "not-an-email", fun s => s⟩
     [(1, "old@x.org")] 1 ["ok@x.org", "not-an-email"] "not-an-email"
     (by decide) (by decide)⟩

end Enterprise
